import Mathlib

/-!
Shallow embedding of the bsdeploy container build-and-rollout engine
(Rust sources under src/), covering the content-addressed image builder
(src/image.rs), the network address allocator and jail lifecycle pieces
(src/jail.rs), the deployment orchestrator (src/commands/deploy.rs), the
service teardown command (src/commands/destroy.rs) and the shell escaping
helpers (src/shell.rs).

Remote effects are modelled by explicit inputs (the parsed output of the
remote commands a function inspects) and explicit outputs (the commands or
actions the function issues), so every definition is executable and every
behavioural statement is about concrete traces.
-/

namespace BsDeploy

/-! ## Rust string primitives

The Rust code sorts and compares `String`s byte-wise and splits/trims them
with the standard library.  We model strings as Lean `String`s and give
structural (kernel-reducible) models of the primitives used: byte-wise
comparison becomes lexicographic comparison of the character scalar values
(identical on the ASCII data the tool manipulates), `split` keeps empty
segments exactly like Rust `str::split`, and `trim` strips leading and
trailing whitespace. -/

/-- Lexicographic comparison of char lists by scalar value
(models Rust byte-wise `Ord` on `String`, identical on ASCII). -/
def charListLe : List Char → List Char → Bool
  | [], _ => true
  | _ :: _, [] => false
  | a :: as, b :: bs =>
    if a.toNat < b.toNat then true
    else if b.toNat < a.toNat then false
    else charListLe as bs

/-- Rust `String` ordering (`a <= b`), as a proposition. -/
def strLe (a b : String) : Prop := charListLe a.data b.data = true

instance : DecidableRel strLe := fun _ _ => inferInstanceAs (Decidable (_ = true))

/-- Rust `Vec::sort` on strings: the unique sorted permutation. -/
def sortStrings (l : List String) : List String := l.insertionSort strLe

/-- Key order on (tool, version) pairs: a `BTreeMap<String, String>` iterates
its entries sorted by key. -/
def keyLe (a b : String × String) : Prop := charListLe a.1.data b.1.data = true

instance : DecidableRel keyLe := fun _ _ => inferInstanceAs (Decidable (_ = true))

/-- Entries of the mise `HashMap`, iterated in `BTreeMap` (key-sorted) order
(src/image.rs:20). -/
def sortPairs (l : List (String × String)) : List (String × String) :=
  l.insertionSort keyLe

/-- Rust `str::split(c)`: splits on a separator character, keeping empty
segments. -/
def splitOnChar (c : Char) : List Char → List (List Char)
  | [] => [[]]
  | a :: as =>
    if a = c then [] :: splitOnChar c as
    else
      match splitOnChar c as with
      | [] => [[a]]
      | seg :: rest => (a :: seg) :: rest

/-- Rust `str::split(c)` lifted to `String`. -/
def splitStr (c : Char) (s : String) : List String :=
  (splitOnChar c s.data).map String.mk

/-- Rust `str::trim`: strip leading and trailing whitespace. -/
def trimStr (s : String) : String :=
  String.mk (((s.data.dropWhile Char.isWhitespace).reverse.dropWhile
    Char.isWhitespace).reverse)

/-- Left-to-right concatenation of a list of strings (a sequence of
`hasher.update`/`push_str` calls). -/
def concatStrings : List String → String
  | [] => ""
  | s :: rest => s ++ concatStrings rest

/-! ## constants.rs -/

/-- Number of old jails to keep for rollback (src/constants.rs:50). -/
def JAILS_TO_KEEP : Nat := 3

/-- Directory for storing jail instances (src/constants.rs:11). -/
def JAILS_DIR : String := "/usr/local/bsdeploy/jails"

/-! ## config.rs

The declarative service description, restricted to the fields the claims
exercise.  `mise` models the Rust `HashMap<String, String>`: an unordered
entry list whose keys are unique by construction of the map. -/

structure Config where
  service : String := ""
  user : Option String := none
  packages : List String := []
  mise : List (String × String) := []
  envClear : List (List (String × String)) := []
  envSecret : List String := []

/-! ## image.rs: get_image_hash (lines 7-34)

`get_image_hash` feeds SHA-256 with: the base version bytes, then each
sorted package followed by `";"`, then each key-sorted mise entry as
`tool ":" version ";"`, then (when a run-as user is configured) `"user:"`
and the user name, and returns the hex digest.  We model the digest by the
byte stream fed to the hasher: SHA-256 collisions are outside the model, so
fingerprint (in)equality is stream (in)equality. -/

/-- The byte stream `get_image_hash` hashes (src/image.rs:7-33). -/
def get_image_hash (c : Config) (base_version : String) : String :=
  base_version
    ++ concatStrings ((sortStrings c.packages).map (fun p => p ++ ";"))
    ++ concatStrings ((sortPairs c.mise).map
        (fun tv => tv.1 ++ ":" ++ tv.2 ++ ";"))
    ++ (match c.user with
        | some u => "user:" ++ u
        | none => "")

/-! ## jail.rs: find_free_ip (lines 6-36) -/

inductive IpError where
  | invalidSubnet : IpError
  | noFreeIp : IpError
deriving DecidableEq, Repr

/-- First segment of the subnet before the slash, defaulting like
`split('/').next().unwrap_or("10.0.0.0")` (src/jail.rs:12). -/
def subnetBase (subnet : String) : String :=
  (splitStr '/' subnet).headD "10.0.0.0"

/-- Dot-separated parts of the subnet base address (src/jail.rs:13). -/
def subnetParts (subnet : String) : List String :=
  splitStr '.' (subnetBase subnet)

/-- The /24 network part `parts[0].parts[1].parts[2]` (src/jail.rs:17). -/
def net24Of (subnet : String) : String :=
  (subnetParts subnet).getD 0 "" ++ "." ++ (subnetParts subnet).getD 1 ""
    ++ "." ++ (subnetParts subnet).getD 2 ""

/-- Candidate address for host suffix `i` (src/jail.rs:26). -/
def candidateIp (net24 : String) (i : Nat) : String :=
  net24 ++ "." ++ toString i

/-- find_free_ip (src/jail.rs:6-36): parse the /24 network part, collect the
addresses aliased on lo1 (`aliasLines` is the raw line list of the ifconfig
output, trimmed as in the source), scan host suffixes 2..=254 and return
the first whose address is not in the live set. -/
def find_free_ip (subnet : String) (aliasLines : List String) :
    Except IpError String :=
  let parts := subnetParts subnet
  if parts.length ≠ 4 then .error .invalidSubnet
  else
    let used := aliasLines.map trimStr
    match (List.range' 2 253).find?
        (fun i => !(used.contains (candidateIp (net24Of subnet) i))) with
    | some i => .ok (candidateIp (net24Of subnet) i)
    | none => .error .noFreeIp

/-! ## shell.rs and configure_environment (deploy.rs:240-267) -/

/-- The single-quote character. -/
def squote : Char := Char.ofNat 39

/-- The backslash character. -/
def bslash : Char := Char.ofNat 92

/-- escape_env_value (src/shell.rs): replace every single quote in the value
by quote-backslash-quote-quote (the value is later placed inside single
quotes). -/
def escape_env_value (s : String) : String :=
  String.mk (s.data.flatMap
    (fun ch => if ch = squote then [squote, bslash, squote, squote] else [ch]))

/-- One `export K='V'` line of the environment file
(src/commands/deploy.rs:250,256). -/
def envLine (k v : String) : String :=
  "export " ++ k ++ "=" ++ String.mk [squote] ++ escape_env_value v
    ++ String.mk [squote] ++ "\n"

/-- Resolution of the declared secret names from the deploying operator's
process environment (src/commands/deploy.rs:254-257): `std::env::var(k)?`
aborts at the first name undefined locally. -/
def resolveSecrets (env : String → Option String) :
    List String → Except String (List (String × String))
  | [] => .ok []
  | k :: ks =>
    match env k with
    | none => .error k
    | some v => (resolveSecrets env ks).map (fun rest => (k, v) :: rest)

/-- configure_environment (src/commands/deploy.rs:240-267).  Returns the
content handed to `remote::write_file`, or, when a declared secret is
undefined in the operator environment, the name of the first such variable;
in the error case the function returns before the write call is reached, so
the environment file is not written. -/
def configure_environment (c : Config) (env : String → Option String) :
    Except String String :=
  let clearPart := concatStrings (c.envClear.map
    (fun m => concatStrings (m.map (fun kv => envLine kv.1 kv.2))))
  match resolveSecrets env c.envSecret with
  | .error k => .error k
  | .ok resolved =>
    let secretPart := concatStrings (resolved.map (fun kv => envLine kv.1 kv.2))
    let misePart :=
      if c.mise.isEmpty then ""
      else "\neval \"$(mise activate bash)\"\n"
    .ok (clearPart ++ secretPart ++ misePart)

/-! ## Jail candidate selection (deploy.rs:450,502; destroy.rs:49)

stop_old_jails, prune_old_jails and destroy's remove_jails all obtain their
candidates from `ls JAILS_DIR/ | grep '^SERVICE-'`: the jail directory
names that start with the service name followed by a hyphen. -/

/-- The `ls JAILS_DIR | grep '^service-'` listing: directory names starting
with the service name followed by a hyphen. -/
def lsServiceJails (dirNames : List String) (service : String) : List String :=
  dirNames.filter (fun n => (service ++ "-").data.isPrefixOf n.data)

/-- stop_old_jails (src/commands/deploy.rs:441-491), selection logic: the
jails whose service process gets stopped are every listed name except the
just-created jail.  Every remote sub-operation is best-effort (`.ok()` /
`if let Ok`), so the Rust function always returns `Ok(())`. -/
def stop_old_jails (lsOut : List String) (newName : String) : List String :=
  (lsOut.map trimStr).filter (fun s => s ≠ "" ∧ s ≠ newName)

/-- prune_old_jails (src/commands/deploy.rs:493-570), selection logic: sort
the cleaned listing, and when more than JAILS_TO_KEEP remain, destroy the
names in the first `len - JAILS_TO_KEEP` positions, skipping (`continue`)
the just-created jail.  The result is the list of destroyed jails.  Every
remote sub-operation in the destruction loop is best-effort, so the Rust
function always returns `Ok(())`. -/
def prune_old_jails (lsOut : List String) (newName : String) : List String :=
  let jails := sortStrings ((lsOut.map trimStr).filter (fun s => s ≠ ""))
  if jails.length > JAILS_TO_KEEP then
    (jails.take (jails.length - JAILS_TO_KEEP)).filter (fun s => s ≠ newName)
  else []

/-- remove_jails (src/commands/destroy.rs:42-90): the `destroy` command tears
down every listed jail of the service. -/
def remove_jails (lsOut : List String) : List String :=
  (lsOut.map trimStr).filter (fun s => s ≠ "")

/-! ## Deployment orchestrator (deploy.rs:23-141)

`deploy_to_host` runs determine_base_version / ensure_base / ensure_image /
jail::create (steps 1-4), then calls `deploy_jail_steps` which sequences the
seven fallible calls start_jail_build_phase, sync_application,
configure_environment, run_before_start_hooks, restart_jail_production,
start_services, update_proxy (steps 5-12 of the pipeline) and finally
stop_old_jails and prune_old_jails, whose bodies swallow every error and
therefore always return `Ok`.  Any error out of `deploy_jail_steps` triggers
`cleanup_failed_jail` on the just-created jail before the error is returned;
an error in steps 1-4 is returned with no cleanup.

We model the outcome of each fallible step by an oracle `ok : Step → Bool`
(the step succeeds iff its remote operations do) and record the observable
actions performed. -/

inductive Step where
  | determineBase | ensureBase | ensureImage | createJail
  | startBuild | syncApp | configureEnv | hooks
  | restartProd | startServices | updateProxy
deriving DecidableEq, Repr

/-- Steps 1-4: before the orchestrator holds a newly created jail
(src/commands/deploy.rs:24-50). -/
def preSteps : List Step :=
  [.determineBase, .ensureBase, .ensureImage, .createJail]

/-- The seven fallible calls of deploy_jail_steps, in source order
(src/commands/deploy.rs:78-97). -/
def fallibleJailSteps : List Step :=
  [.startBuild, .syncApp, .configureEnv, .hooks,
   .restartProd, .startServices, .updateProxy]

structure JailInfo where
  name : String
  path : String
  ip : String
deriving DecidableEq, Repr

deriving instance DecidableEq for Except

/-- Observable actions of a deploy run, tagged with the jail they act on. -/
inductive Action where
  | step (s : Step) (jail : String)
  | stopJail (jail : String)
  | removeAlias (ip : String)
  | unmountAll (path : String)
  | destroyStorage (path : String)
  | stopService (jail : String)
  | pruneDestroy (jail : String)
deriving DecidableEq, Repr

/-- cleanup_failed_jail (src/commands/deploy.rs:109-141): stop the jail,
remove its lo1 alias (when an address was recorded), unmount everything
under its path, destroy its dataset and remove its directory; each sub-step
is best-effort. -/
def cleanup_failed_jail (j : JailInfo) : List Action :=
  [Action.stopJail j.name]
    ++ (if j.ip ≠ "" then [Action.removeAlias j.ip] else [])
    ++ [Action.unmountAll j.path, Action.destroyStorage j.path]

/-- First step of `l` that fails under the oracle (the `?` operator stops the
sequence there). -/
def firstFailing (ok : Step → Bool) (l : List Step) : Option Step :=
  l.find? (fun s => !ok s)

/-- deploy_jail_steps (src/commands/deploy.rs:71-106): run the seven fallible
steps in order, stopping at the first failure; when all succeed,
stop_old_jails and prune_old_jails run on the jail listing (they cannot
fail).  Returns the result and the performed actions. -/
def deploy_jail_steps (ok : Step → Bool) (j : JailInfo) (lsOut : List String) :
    Except Step Unit × List Action :=
  match firstFailing ok fallibleJailSteps with
  | some s =>
    (.error s,
     (fallibleJailSteps.takeWhile (fun t => ok t)).map
       (fun t => Action.step t j.name))
  | none =>
    (.ok (),
     fallibleJailSteps.map (fun t => Action.step t j.name)
       ++ (stop_old_jails lsOut j.name).map Action.stopService
       ++ (prune_old_jails lsOut j.name).map Action.pruneDestroy)

/-- deploy_to_host (src/commands/deploy.rs:23-68): an error in steps 1-4 is
returned with no cleanup; any error from deploy_jail_steps triggers
cleanup_failed_jail on the just-created jail, after which the error is
surfaced. -/
def deploy_to_host (ok : Step → Bool) (j : JailInfo) (lsOut : List String) :
    Except Step Unit × List Action :=
  match firstFailing ok preSteps with
  | some s => (.error s, [])
  | none =>
    match deploy_jail_steps ok j lsOut with
    | (.error s, acts) => (.error s, acts ++ cleanup_failed_jail j)
    | (.ok _, acts) => (.ok (), acts)

/-- An action touches only the given jail (its name, address or path). -/
def targetsOnly (j : JailInfo) : Action → Prop
  | .step _ n => n = j.name
  | .stopJail n => n = j.name
  | .removeAlias i => i = j.ip
  | .unmountAll p => p = j.path
  | .destroyStorage p => p = j.path
  | .stopService n => n = j.name
  | .pruneDestroy n => n = j.name

/-! ## Content-addressed image builder (image.rs:44-240)

`ensure_image` first runs `test -d IMAGE_PATH/usr/local` (src/image.rs:51)
and returns the image path on success — this directory test is the entire
readiness check.  Otherwise it builds: a stale build-jail root left by an
earlier failed build is torn down first (src/image.rs:64-85), then the
skeleton is created, a transient build jail started, packages, user and
mise runtimes installed, the jail stopped, the artifact captured under the
image path (`usr/local` is the first directory rsynced, src/image.rs:198),
a `@base` ZFS snapshot created when on ZFS, and the build root removed.
Every `?` failure propagates immediately: the function has no error-path
cleanup.

Phases are named after the numbered comments in the source; the
conditional phases (packages/user/mise) are included as for a configuration
declaring all three, which does not affect the claims modelled. -/

inductive ImgPhase where
  | cleanupStale
  | skeleton
  | startBuildJail
  | installBaseTools
  | installPackages
  | createUser
  | installMise
  | stopBuildJail
  | captureInit
  | captureUsrLocal
  | captureRest
  | snapshot
  | destroyBuildRoot
deriving DecidableEq, Repr

/-- The host-filesystem facts ensure_image inspects and mutates:
whether the stale build-jail root exists (src/image.rs:65), whether
`IMAGE_PATH/usr/local` exists (the cache check, src/image.rs:51), and
whether the `@base` completion snapshot exists (src/image.rs:225-231). -/
structure ImgState where
  buildRootExists : Bool
  imageUsrLocal : Bool
  imageSnapshot : Bool
deriving DecidableEq, Repr

/-- Effect of each successfully executed phase on the host state.
cleanupStale removes the stale build root (src/image.rs:84), skeleton
creates it (src/image.rs:91), captureUsrLocal rsyncs `usr/local` under the
image path (src/image.rs:198-218), snapshot creates `@base`
(src/image.rs:230), destroyBuildRoot removes the build root
(src/image.rs:237). -/
def imgEffect : ImgPhase → ImgState → ImgState
  | .cleanupStale, st => { st with buildRootExists := false }
  | .skeleton, st => { st with buildRootExists := true }
  | .captureUsrLocal, st => { st with imageUsrLocal := true }
  | .snapshot, st => { st with imageSnapshot := true }
  | .destroyBuildRoot, st => { st with buildRootExists := false }
  | _, st => st

/-- Phase sequence of a build: a stale build root present at entry is
cleaned up first (src/image.rs:64-85), then the numbered build steps run in
source order. -/
def imgPhases (staleRoot : Bool) : List ImgPhase :=
  (if staleRoot then [ImgPhase.cleanupStale] else [])
    ++ [.skeleton, .startBuildJail, .installBaseTools, .installPackages,
        .createUser, .installMise, .stopBuildJail, .captureInit,
        .captureUsrLocal, .captureRest, .snapshot, .destroyBuildRoot]

/-- Run phases in order under the outcome oracle; a failing phase aborts the
run with its error (the `?` operator), leaving the state as mutated so far:
ensure_image performs no cleanup on the error path.  Returns the result,
the final host state and the successfully executed phases. -/
def runImgPhases (ok : ImgPhase → Bool) :
    List ImgPhase → ImgState → Except ImgPhase Unit × ImgState × List ImgPhase
  | [], st => (.ok (), st, [])
  | p :: ps, st =>
    if ok p then
      let r := runImgPhases ok ps (imgEffect p st)
      (r.1, r.2.1, p :: r.2.2)
    else (.error p, st, [])

/-- Image path derived from the 12-hex-char fingerprint (src/image.rs:47). -/
def image_path (short_hash : String) : String :=
  "/usr/local/bsdeploy/images/" ++ short_hash

/-- ensure_image (src/image.rs:44-240): when `IMAGE_PATH/usr/local` exists
the function returns the image path at once (cache hit, zero build phases);
otherwise the full build runs.  Returns the result, the final host state
and the executed build phases. -/
def ensure_image (ok : ImgPhase → Bool) (st : ImgState) (short_hash : String) :
    Except ImgPhase String × ImgState × List ImgPhase :=
  if st.imageUsrLocal then (.ok (image_path short_hash), st, [])
  else
    let r := runImgPhases ok (imgPhases st.buildRootExists) st
    (r.1.map (fun _ => image_path short_hash), r.2.1, r.2.2)

/-! ## Helper lemmas about the orchestrator model -/

lemma firstFailing_none {ok : Step → Bool} {l : List Step}
    (h : ∀ p ∈ l, ok p = true) : firstFailing ok l = none := by
  apply List.find?_eq_none.mpr
  intro x hx
  simp [h x hx]

lemma mem_cleanup_targets {j : JailInfo} {a : Action}
    (h : a ∈ cleanup_failed_jail j) : targetsOnly j a := by
  by_cases hip : j.ip = "" <;>
    simp [cleanup_failed_jail, hip] at h <;>
    rcases h with rfl | rfl | rfl | rfl <;> simp [targetsOnly]

lemma deploy_fail_shape {ok : Step → Bool} {j : JailInfo} {ls : List String}
    {s : Step} (hpre : ∀ p ∈ preSteps, ok p = true)
    (hfail : firstFailing ok fallibleJailSteps = some s) :
    deploy_to_host ok j ls =
      (.error s,
        ((fallibleJailSteps.takeWhile (fun t => ok t)).map
          (fun t => Action.step t j.name)) ++ cleanup_failed_jail j) := by
  simp [deploy_to_host, firstFailing_none hpre, deploy_jail_steps, hfail]

/-! ## C4: rollback on failure of deployment steps 5-11 -/

/-- C4: if any of start_jail_build_phase, sync_application,
configure_environment, run_before_start_hooks, restart_jail_production or
start_services fails first (steps 5-11 of the pipeline), deploy_to_host
destroys the newly created jail — stop, remove its loopback alias, unmount
everything under its root, destroy its dataset/directory — before surfacing
the error, and every action of the run touches only the new jail (the
previously serving jail is untouched); a failure in steps 1-4 surfaces with
no cleanup at all (no new jail to clean up). -/
theorem rollback_on_jail_step_failure :
    (∀ (ok : Step → Bool) (j : JailInfo) (ls : List String) (s : Step),
      (∀ p ∈ preSteps, ok p = true) →
      firstFailing ok fallibleJailSteps = some s →
      s ≠ Step.updateProxy →
      (deploy_to_host ok j ls).1 = .error s
        ∧ Action.stopJail j.name ∈ (deploy_to_host ok j ls).2
        ∧ (j.ip ≠ "" → Action.removeAlias j.ip ∈ (deploy_to_host ok j ls).2)
        ∧ Action.unmountAll j.path ∈ (deploy_to_host ok j ls).2
        ∧ Action.destroyStorage j.path ∈ (deploy_to_host ok j ls).2
        ∧ ∀ a ∈ (deploy_to_host ok j ls).2, targetsOnly j a)
    ∧ (∀ (ok : Step → Bool) (j : JailInfo) (ls : List String) (s : Step),
      firstFailing ok preSteps = some s →
      deploy_to_host ok j ls = (.error s, [])) := by
  constructor
  · intro ok j ls s hpre hfail _
    rw [deploy_fail_shape hpre hfail]
    refine ⟨rfl, ?_, ?_, ?_, ?_, ?_⟩
    · simp [cleanup_failed_jail]
    · intro hip; simp [cleanup_failed_jail, hip]
    · simp [cleanup_failed_jail]
    · simp [cleanup_failed_jail]
    · intro a ha
      rcases List.mem_append.1 ha with h | h
      · rcases List.mem_map.1 h with ⟨t, _, rfl⟩
        simp [targetsOnly]
      · exact mem_cleanup_targets h
  · intro ok j ls s hfail
    simp [deploy_to_host, firstFailing] at hfail ⊢
    simp [hfail]

/-- Witness for C4: with the hooks step failing, the run errors with `hooks`
and the trace destroys exactly the new jail. -/
theorem rollback_on_jail_step_failure_witness :
    (deploy_to_host (fun s => s != Step.hooks)
        ⟨"web-20240101-000001", "/usr/local/bsdeploy/jails/web-20240101-000001",
         "10.0.0.7"⟩ []).1 = .error Step.hooks
      ∧ Action.stopJail "web-20240101-000001" ∈
          (deploy_to_host (fun s => s != Step.hooks)
            ⟨"web-20240101-000001",
             "/usr/local/bsdeploy/jails/web-20240101-000001", "10.0.0.7"⟩ []).2
      ∧ ((("10.0.0.7" : String) ≠ "") → Action.removeAlias "10.0.0.7" ∈
          (deploy_to_host (fun s => s != Step.hooks)
            ⟨"web-20240101-000001",
             "/usr/local/bsdeploy/jails/web-20240101-000001", "10.0.0.7"⟩ []).2)
      ∧ Action.unmountAll "/usr/local/bsdeploy/jails/web-20240101-000001" ∈
          (deploy_to_host (fun s => s != Step.hooks)
            ⟨"web-20240101-000001",
             "/usr/local/bsdeploy/jails/web-20240101-000001", "10.0.0.7"⟩ []).2
      ∧ Action.destroyStorage "/usr/local/bsdeploy/jails/web-20240101-000001" ∈
          (deploy_to_host (fun s => s != Step.hooks)
            ⟨"web-20240101-000001",
             "/usr/local/bsdeploy/jails/web-20240101-000001", "10.0.0.7"⟩ []).2
      ∧ ∀ a ∈ (deploy_to_host (fun s => s != Step.hooks)
            ⟨"web-20240101-000001",
             "/usr/local/bsdeploy/jails/web-20240101-000001", "10.0.0.7"⟩ []).2,
          targetsOnly
            ⟨"web-20240101-000001",
             "/usr/local/bsdeploy/jails/web-20240101-000001", "10.0.0.7"⟩ a :=
  rollback_on_jail_step_failure.1 (fun s => s != Step.hooks)
    ⟨"web-20240101-000001", "/usr/local/bsdeploy/jails/web-20240101-000001",
     "10.0.0.7"⟩ [] Step.hooks (by decide) (by decide) (by decide)

/-! ## C3: proxy-cutover / pruning failures after the services start -/

/-- C3 counterexample: with every step succeeding except update_proxy, the
deploy errors with updateProxy AND the just-serving jail IS rolled back —
its storage is destroyed and its loopback alias removed — contrary to the
claim that a proxy-cutover failure leaves the jail serving. -/
theorem proxy_failure_rolls_back_new_jail :
    (deploy_to_host (fun s => s != Step.updateProxy)
        ⟨"web-20240101-000000", "/usr/local/bsdeploy/jails/web-20240101-000000",
         "10.0.0.4"⟩ ["web-20231231-000000"]).1 = .error Step.updateProxy
      ∧ Action.destroyStorage "/usr/local/bsdeploy/jails/web-20240101-000000" ∈
          (deploy_to_host (fun s => s != Step.updateProxy)
            ⟨"web-20240101-000000",
             "/usr/local/bsdeploy/jails/web-20240101-000000", "10.0.0.4"⟩
            ["web-20231231-000000"]).2
      ∧ Action.removeAlias "10.0.0.4" ∈
          (deploy_to_host (fun s => s != Step.updateProxy)
            ⟨"web-20240101-000000",
             "/usr/local/bsdeploy/jails/web-20240101-000000", "10.0.0.4"⟩
            ["web-20231231-000000"]).2 := by
  decide

/-- C3 amended: a pruning or old-jail-stop failure can never surface (their
bodies swallow every error, so a run whose fallible steps all succeed
returns Ok regardless of the jail listing); a proxy-cutover (update_proxy)
failure IS surfaced as the run's error and DOES roll the newly created jail
back: cleanup_failed_jail destroys its storage and stops it. -/
theorem proxy_failure_rollback_and_prune_infallible :
    (∀ (ok : Step → Bool) (j : JailInfo) (ls : List String),
      (∀ p ∈ preSteps, ok p = true) →
      (∀ q ∈ [Step.startBuild, Step.syncApp, Step.configureEnv, Step.hooks,
              Step.restartProd, Step.startServices], ok q = true) →
      ok Step.updateProxy = false →
      (deploy_to_host ok j ls).1 = .error Step.updateProxy
        ∧ Action.destroyStorage j.path ∈ (deploy_to_host ok j ls).2
        ∧ Action.stopJail j.name ∈ (deploy_to_host ok j ls).2)
    ∧ (∀ (ok : Step → Bool) (j : JailInfo) (ls : List String),
      (∀ p ∈ preSteps, ok p = true) →
      (∀ q ∈ fallibleJailSteps, ok q = true) →
      (deploy_to_host ok j ls).1 = .ok ()) := by
  constructor
  · intro ok j ls hpre hq hproxy
    have h1 : ok Step.startBuild = true := hq _ (by simp)
    have h2 : ok Step.syncApp = true := hq _ (by simp)
    have h3 : ok Step.configureEnv = true := hq _ (by simp)
    have h4 : ok Step.hooks = true := hq _ (by simp)
    have h5 : ok Step.restartProd = true := hq _ (by simp)
    have h6 : ok Step.startServices = true := hq _ (by simp)
    have hfail : firstFailing ok fallibleJailSteps = some Step.updateProxy := by
      simp [firstFailing, fallibleJailSteps, List.find?, h1, h2, h3, h4, h5,
        h6, hproxy]
    rw [deploy_fail_shape hpre hfail]
    refine ⟨rfl, ?_, ?_⟩ <;> simp [cleanup_failed_jail]
  · intro ok j ls hpre hall
    simp [deploy_to_host, firstFailing_none hpre, deploy_jail_steps,
      firstFailing_none hall]

/-- Witness for the C3 amended theorem. -/
theorem proxy_failure_rollback_and_prune_infallible_witness :
    ((deploy_to_host (fun s => s != Step.updateProxy)
        ⟨"web-20240101-000000", "/usr/local/bsdeploy/jails/web-20240101-000000",
         "10.0.0.4"⟩ []).1 = .error Step.updateProxy
      ∧ Action.destroyStorage "/usr/local/bsdeploy/jails/web-20240101-000000" ∈
          (deploy_to_host (fun s => s != Step.updateProxy)
            ⟨"web-20240101-000000",
             "/usr/local/bsdeploy/jails/web-20240101-000000", "10.0.0.4"⟩ []).2
      ∧ Action.stopJail "web-20240101-000000" ∈
          (deploy_to_host (fun s => s != Step.updateProxy)
            ⟨"web-20240101-000000",
             "/usr/local/bsdeploy/jails/web-20240101-000000", "10.0.0.4"⟩ []).2)
    ∧ (deploy_to_host (fun _ => true)
        ⟨"web-20240101-000000", "/usr/local/bsdeploy/jails/web-20240101-000000",
         "10.0.0.4"⟩ ["web-20231231-000000"]).1 = .ok () :=
  ⟨proxy_failure_rollback_and_prune_infallible.1 (fun s => s != Step.updateProxy)
      ⟨"web-20240101-000000", "/usr/local/bsdeploy/jails/web-20240101-000000",
       "10.0.0.4"⟩ [] (by decide) (by decide) (by decide),
   proxy_failure_rollback_and_prune_infallible.2 (fun _ => true)
      ⟨"web-20240101-000000", "/usr/local/bsdeploy/jails/web-20240101-000000",
       "10.0.0.4"⟩ ["web-20231231-000000"] (by decide) (by decide)⟩

/-! ## C9: missing declared secrets abort configure_environment -/

lemma resolveSecrets_missing (env : String → Option String) :
    ∀ l : List String, (∃ k ∈ l, env k = none) →
      ∃ k0 ∈ l, env k0 = none ∧ resolveSecrets env l = .error k0 := by
  intro l
  induction l with
  | nil => rintro ⟨k, hk, _⟩; cases hk
  | cons k ks ih =>
    rintro ⟨k1, hk1, hnone⟩
    cases hk : env k with
    | none => exact ⟨k, List.mem_cons_self k ks, hk, by simp [resolveSecrets, hk]⟩
    | some v =>
      have hk1ks : k1 ∈ ks := by
        rcases List.mem_cons.1 hk1 with rfl | h
        · rw [hk] at hnone; cases hnone
        · exact h
      rcases ih ⟨k1, hk1ks, hnone⟩ with ⟨k0, hk0, hk0none, heq⟩
      exact ⟨k0, List.mem_cons_of_mem _ hk0, hk0none,
        by simp [resolveSecrets, hk, heq, Except.map]⟩

/-- C9: configure_environment resolves each declared secret from the
operator's own process environment and fails with the (first) undefined one
before the environment file write is reached (the returned content is the
write; an error means nothing was written); and a configure_environment
failure aborts the remaining pipeline for the host, rolling back the
just-created jail (its storage ends up destroyed). -/
theorem configure_environment_missing_secret :
    (∀ (c : Config) (env : String → Option String),
      (∃ k ∈ c.envSecret, env k = none) →
      ∃ k0 ∈ c.envSecret, env k0 = none
        ∧ configure_environment c env = .error k0)
    ∧ (∀ (ok : Step → Bool) (j : JailInfo) (ls : List String),
      (∀ p ∈ preSteps, ok p = true) →
      ok Step.startBuild = true → ok Step.syncApp = true →
      ok Step.configureEnv = false →
      (deploy_to_host ok j ls).1 = .error Step.configureEnv
        ∧ Action.destroyStorage j.path ∈ (deploy_to_host ok j ls).2) := by
  constructor
  · intro c env hex
    rcases resolveSecrets_missing env c.envSecret hex with ⟨k0, hk0, hnone, heq⟩
    exact ⟨k0, hk0, hnone, by simp [configure_environment, heq]⟩
  · intro ok j ls hpre h1 h2 hconf
    have hfail : firstFailing ok fallibleJailSteps = some Step.configureEnv := by
      simp [firstFailing, fallibleJailSteps, List.find?, h1, h2, hconf]
    rw [deploy_fail_shape hpre hfail]
    exact ⟨rfl, by simp [cleanup_failed_jail]⟩

/-- Witness for C9: with secrets `API_KEY` (defined) and `DB_PASS`
(undefined), configure_environment errors on `DB_PASS`; a configureEnv
failure rolls back the new jail. -/
theorem configure_environment_missing_secret_witness :
    (∃ k0 ∈ ["API_KEY", "DB_PASS"], (fun k =>
        if k = "API_KEY" then some "zzz" else none) k0 = none
      ∧ configure_environment
          { envSecret := ["API_KEY", "DB_PASS"], envClear := [[("PORT", "3000")]] }
          (fun k => if k = "API_KEY" then some "zzz" else none) = .error k0)
    ∧ ((deploy_to_host (fun s => s != Step.configureEnv)
        ⟨"web-20240101-000002", "/usr/local/bsdeploy/jails/web-20240101-000002",
         "10.0.0.9"⟩ []).1 = .error Step.configureEnv
      ∧ Action.destroyStorage "/usr/local/bsdeploy/jails/web-20240101-000002" ∈
          (deploy_to_host (fun s => s != Step.configureEnv)
            ⟨"web-20240101-000002",
             "/usr/local/bsdeploy/jails/web-20240101-000002", "10.0.0.9"⟩ []).2) :=
  ⟨configure_environment_missing_secret.1
      { envSecret := ["API_KEY", "DB_PASS"], envClear := [[("PORT", "3000")]] }
      (fun k => if k = "API_KEY" then some "zzz" else none)
      ⟨"DB_PASS", by decide, by decide⟩,
   configure_environment_missing_secret.2 (fun s => s != Step.configureEnv)
      ⟨"web-20240101-000002", "/usr/local/bsdeploy/jails/web-20240101-000002",
       "10.0.0.9"⟩ [] (by decide) (by decide) (by decide) (by decide)⟩

/-! ## C5: pruning retention -/

/-- C5 counterexample: with 5 existing jails plus a just-created jail whose
name sorts lexically first, prune_old_jails destroys only TWO jails (the
skip of the just-created jail is not compensated by destroying a later
one), not the claimed exactly three. -/
theorem prune_skips_new_without_replacement :
    prune_old_jails
        ["app-00000000-000000", "app-20240102-000000", "app-20240103-000000",
         "app-20240104-000000", "app-20240105-000000", "app-20240106-000000"]
        "app-00000000-000000"
      = ["app-20240102-000000", "app-20240103-000000"]
    ∧ (prune_old_jails
        ["app-00000000-000000", "app-20240102-000000", "app-20240103-000000",
         "app-20240104-000000", "app-20240105-000000", "app-20240106-000000"]
        "app-00000000-000000").length = 2 := by
  decide

/-- C5 amended: the just-created jail is never among the destroyed jails;
and in the 5-existing-plus-one-created scenario (6 listed jails), when the
just-created jail is NOT among the 3 lexically smallest names (the normal
case, since its timestamp name sorts last), exactly the 3 lexically
smallest (= oldest) jails are destroyed; when its name would sort among the
3 oldest it is skipped and only the remaining ones of those 3 are
destroyed. -/
theorem prune_retention :
    (∀ (lsOut : List String) (newName : String),
      newName ∉ prune_old_jails lsOut newName)
    ∧ (∀ (lsOut : List String) (newName : String),
      (sortStrings ((lsOut.map trimStr).filter (fun s => s ≠ ""))).length = 6 →
      newName ∉ (sortStrings ((lsOut.map trimStr).filter (fun s => s ≠ ""))).take 3 →
      prune_old_jails lsOut newName
          = (sortStrings ((lsOut.map trimStr).filter (fun s => s ≠ ""))).take 3
        ∧ (prune_old_jails lsOut newName).length = 3) := by
  constructor
  · intro lsOut newName hmem
    simp only [prune_old_jails] at hmem
    split at hmem
    · have := (List.mem_filter.1 hmem).2
      simp at this
    · simp at hmem
  · intro lsOut newName h6 hnew
    have hfilter :
        ((sortStrings ((lsOut.map trimStr).filter (fun s => s ≠ ""))).take 3).filter
            (fun s => s ≠ newName)
          = (sortStrings ((lsOut.map trimStr).filter (fun s => s ≠ ""))).take 3 := by
      apply List.filter_eq_self.mpr
      intro a ha
      have : a ≠ newName := by
        intro h
        exact hnew (h ▸ ha)
      simp [this]
    have hshape : prune_old_jails lsOut newName
        = (sortStrings ((lsOut.map trimStr).filter (fun s => s ≠ ""))).take 3 := by
      simp only [prune_old_jails, h6]
      have hcond : 6 > JAILS_TO_KEEP := by norm_num [JAILS_TO_KEEP]
      rw [if_pos hcond]
      have h63 : 6 - JAILS_TO_KEEP = 3 := by norm_num [JAILS_TO_KEEP]
      rw [h63, hfilter]
    refine ⟨hshape, ?_⟩
    rw [hshape, List.length_take, h6]
    norm_num

/-- Witness for C5 amended: the standard case where the new jail's
timestamp sorts last destroys exactly the 3 oldest. -/
theorem prune_retention_witness :
    prune_old_jails
        ["app-20240101-000000", "app-20240102-000000", "app-20240103-000000",
         "app-20240104-000000", "app-20240105-000000", "app-20240106-000000"]
        "app-20240106-000000"
      = (sortStrings (((["app-20240101-000000", "app-20240102-000000",
          "app-20240103-000000", "app-20240104-000000", "app-20240105-000000",
          "app-20240106-000000"] : List String).map trimStr).filter
            (fun s => s ≠ ""))).take 3
    ∧ (prune_old_jails
        ["app-20240101-000000", "app-20240102-000000", "app-20240103-000000",
         "app-20240104-000000", "app-20240105-000000", "app-20240106-000000"]
        "app-20240106-000000").length = 3 :=
  prune_retention.2
    ["app-20240101-000000", "app-20240102-000000", "app-20240103-000000",
     "app-20240104-000000", "app-20240105-000000", "app-20240106-000000"]
    "app-20240106-000000" (by decide) (by decide)

/-! ## C10: service-name prefix matching of jail candidates -/

/-- C10: the stop/prune/destroy candidate listings select jail directory
names starting with `SERVICE-`, so for services `app` and `app-db` the
`app-db-*` jails are candidates of service `app`: they are selected by the
listing filter, stopped by stop_old_jails, counted toward the retention
threshold and destroyed by prune_old_jails (while without them the two
`app-*` jails alone are under the threshold and nothing is pruned), and
destroyed by the destroy command's remove_jails. -/
theorem service_name_hyphen_matching :
    "app-db-20240101-000000" ∈
        lsServiceJails
          ["app-20240101-000000", "app-20240110-000000",
           "app-db-20240101-000000", "app-db-20240102-000000",
           "app-db-20240103-000000", "app-db-20240104-000000"] "app"
      ∧ "app-db-20240101-000000" ∈
          stop_old_jails
            (lsServiceJails
              ["app-20240101-000000", "app-20240110-000000",
               "app-db-20240101-000000", "app-db-20240102-000000",
               "app-db-20240103-000000", "app-db-20240104-000000"] "app")
            "app-20240110-000000"
      ∧ "app-db-20240101-000000" ∈
          prune_old_jails
            (lsServiceJails
              ["app-20240101-000000", "app-20240110-000000",
               "app-db-20240101-000000", "app-db-20240102-000000",
               "app-db-20240103-000000", "app-db-20240104-000000"] "app")
            "app-20240110-000000"
      ∧ prune_old_jails
            (lsServiceJails
              ["app-20240101-000000", "app-20240110-000000"] "app")
            "app-20240110-000000" = []
      ∧ "app-db-20240101-000000" ∈
          remove_jails
            (lsServiceJails
              ["app-20240101-000000", "app-20240110-000000",
               "app-db-20240101-000000", "app-db-20240102-000000",
               "app-db-20240103-000000", "app-db-20240104-000000"] "app") := by
  decide

/-! ## C1: image readiness is inferred from directory existence alone -/

/-- C1 counterexample: image storage left by an interrupted build
(`IMAGE/usr/local` present, completion snapshot absent) is treated as a
cache HIT: ensure_image returns the image path having executed zero build
phases and having destroyed nothing, although the completion marker is
absent. -/
theorem ensure_image_markerless_cache_hit :
    ensure_image (fun _ => true)
        { buildRootExists := false, imageUsrLocal := true, imageSnapshot := false }
        "abc123def456"
      = (.ok "/usr/local/bsdeploy/images/abc123def456",
         { buildRootExists := false, imageUsrLocal := true,
           imageSnapshot := false },
         []) := by
  decide

/-- C1 amended: ensure_image's readiness check is exactly the directory
test `test -d IMAGE/usr/local` (image.rs:51): a call is a cache hit — the
image path returned with zero build phases — iff that directory exists,
independently of the completion snapshot; on a cache hit the host state is
returned unchanged, so a marker-less dataset is NOT destroyed before
reuse and the completion snapshot is never consulted. -/
theorem ensure_image_readiness_is_dir_check :
    ∀ (ok : ImgPhase → Bool) (st : ImgState) (sh : String),
      (((ensure_image ok st sh).1 = .ok (image_path sh)
          ∧ (ensure_image ok st sh).2.2 = []) ↔ st.imageUsrLocal = true)
      ∧ (st.imageUsrLocal = true →
          ensure_image ok st sh = (.ok (image_path sh), st, [])) := by
  intro ok st sh
  by_cases h : st.imageUsrLocal = true
  · exact ⟨by simp [ensure_image, h], fun _ => by simp [ensure_image, h]⟩
  · have hfalse : st.imageUsrLocal = false := by simpa using h
    refine ⟨?_, fun hh => absurd hh h⟩
    simp only [ensure_image, hfalse, Bool.false_eq_true, if_false]
    constructor
    · rintro ⟨hok, htr⟩
      rcases hcons : imgPhases st.buildRootExists with _ | ⟨p, ps⟩
      · cases st.buildRootExists <;> simp [imgPhases] at hcons
      · rw [hcons] at hok htr
        by_cases hp : ok p = true
        · simp [runImgPhases, hp] at htr
        · simp [runImgPhases, hp, Except.map] at hok
    · intro hcontra
      exact absurd hcontra (by simp [hfalse])

/-- Witness for C1 amended: a state with the image directory present and the
snapshot absent is reported ready, unchanged, with zero build phases. -/
theorem ensure_image_readiness_is_dir_check_witness :
    ensure_image (fun _ => false)
        { buildRootExists := false, imageUsrLocal := true, imageSnapshot := false }
        "0a1b2c3d4e5f"
      = (.ok (image_path "0a1b2c3d4e5f"),
         { buildRootExists := false, imageUsrLocal := true,
           imageSnapshot := false },
         []) :=
  (ensure_image_readiness_is_dir_check (fun _ => false)
      { buildRootExists := false, imageUsrLocal := true, imageSnapshot := false }
      "0a1b2c3d4e5f").2 rfl

/-! ## C2: a failed image build leaves its partial storage behind -/

/-- C2 counterexample: with the package-install step failing on a fresh
host, ensure_image propagates the error having destroyed nothing: the
build-jail root is still present after the call (residual storage) and no
cleanup phase ran.  Moreover a failure midway through artifact capture
(after `usr/local` was rsynced, before the remaining directories) leaves
`IMAGE/usr/local` present without the completion snapshot, and a following
call then misidentifies that partial image as complete (cache hit with zero
build phases) even though every one of its own remote commands would fail. -/
theorem ensure_image_failure_leaves_residue :
    ensure_image (fun p => p != ImgPhase.installPackages)
        { buildRootExists := false, imageUsrLocal := false, imageSnapshot := false }
        "abc123def456"
      = (.error ImgPhase.installPackages,
         { buildRootExists := true, imageUsrLocal := false,
           imageSnapshot := false },
         [ImgPhase.skeleton, ImgPhase.startBuildJail, ImgPhase.installBaseTools])
    ∧ (ensure_image (fun p => p != ImgPhase.captureRest)
        { buildRootExists := false, imageUsrLocal := false, imageSnapshot := false }
        "abc123def456").2.1
      = { buildRootExists := true, imageUsrLocal := true, imageSnapshot := false }
    ∧ ensure_image (fun _ => false)
        { buildRootExists := true, imageUsrLocal := true, imageSnapshot := false }
        "abc123def456"
      = (.ok "/usr/local/bsdeploy/images/abc123def456",
         { buildRootExists := true, imageUsrLocal := true,
           imageSnapshot := false },
         []) := by
  decide

/-- C2 amended: when any step of the transient build-container phase
(container start, base-tool/package install, user creation, mise install,
container stop) fails first, ensure_image propagates the error with NO
destruction: the build root remains (residual storage), no readiness
marker exists, and neither cleanup nor destroy phase was executed; the
stale root is only detected and destroyed at the START of the next call,
which is not a cache hit (the image's usr/local is absent) and rebuilds
from scratch.  (A failure later, during artifact capture, can instead leave
partial image storage that a following call misidentifies — see the
counterexample.) -/
theorem ensure_image_failure_no_cleanup :
    ∀ (ok : ImgPhase → Bool) (p : ImgPhase) (sh : String),
      p ∈ [ImgPhase.startBuildJail, ImgPhase.installBaseTools,
           ImgPhase.installPackages, ImgPhase.createUser, ImgPhase.installMise,
           ImgPhase.stopBuildJail] →
      ok p = false →
      (∀ q ∈ (imgPhases false).takeWhile (fun q => q ≠ p), ok q = true) →
      ((ensure_image ok
          { buildRootExists := false, imageUsrLocal := false,
            imageSnapshot := false } sh).1 = .error p
        ∧ (ensure_image ok
            { buildRootExists := false, imageUsrLocal := false,
              imageSnapshot := false } sh).2.1
          = { buildRootExists := true, imageUsrLocal := false,
              imageSnapshot := false }
        ∧ ImgPhase.destroyBuildRoot ∉ (ensure_image ok
            { buildRootExists := false, imageUsrLocal := false,
              imageSnapshot := false } sh).2.2
        ∧ ImgPhase.cleanupStale ∉ (ensure_image ok
            { buildRootExists := false, imageUsrLocal := false,
              imageSnapshot := false } sh).2.2)
      ∧ ensure_image (fun _ => true)
          { buildRootExists := true, imageUsrLocal := false,
            imageSnapshot := false } sh
        = (.ok (image_path sh),
           { buildRootExists := false, imageUsrLocal := true,
             imageSnapshot := true },
           imgPhases true) := by
  intro ok p sh hmem hp htake
  constructor
  · have hmem' : p = ImgPhase.startBuildJail ∨ p = ImgPhase.installBaseTools
        ∨ p = ImgPhase.installPackages ∨ p = ImgPhase.createUser
        ∨ p = ImgPhase.installMise ∨ p = ImgPhase.stopBuildJail := by
      simpa using hmem
    rcases hmem' with rfl | rfl | rfl | rfl | rfl | rfl
    · have a1 : ok ImgPhase.skeleton = true := htake _ (by decide)
      simp [ensure_image, imgPhases, runImgPhases, imgEffect, Except.map, a1, hp]
    · have a1 : ok ImgPhase.skeleton = true := htake _ (by decide)
      have a2 : ok ImgPhase.startBuildJail = true := htake _ (by decide)
      simp [ensure_image, imgPhases, runImgPhases, imgEffect, Except.map, a1, a2, hp]
    · have a1 : ok ImgPhase.skeleton = true := htake _ (by decide)
      have a2 : ok ImgPhase.startBuildJail = true := htake _ (by decide)
      have a3 : ok ImgPhase.installBaseTools = true := htake _ (by decide)
      simp [ensure_image, imgPhases, runImgPhases, imgEffect, Except.map, a1, a2, a3, hp]
    · have a1 : ok ImgPhase.skeleton = true := htake _ (by decide)
      have a2 : ok ImgPhase.startBuildJail = true := htake _ (by decide)
      have a3 : ok ImgPhase.installBaseTools = true := htake _ (by decide)
      have a4 : ok ImgPhase.installPackages = true := htake _ (by decide)
      simp [ensure_image, imgPhases, runImgPhases, imgEffect, Except.map, a1, a2, a3, a4, hp]
    · have a1 : ok ImgPhase.skeleton = true := htake _ (by decide)
      have a2 : ok ImgPhase.startBuildJail = true := htake _ (by decide)
      have a3 : ok ImgPhase.installBaseTools = true := htake _ (by decide)
      have a4 : ok ImgPhase.installPackages = true := htake _ (by decide)
      have a5 : ok ImgPhase.createUser = true := htake _ (by decide)
      simp [ensure_image, imgPhases, runImgPhases, imgEffect, Except.map, a1,
        a2, a3, a4, a5, hp]
    · have a1 : ok ImgPhase.skeleton = true := htake _ (by decide)
      have a2 : ok ImgPhase.startBuildJail = true := htake _ (by decide)
      have a3 : ok ImgPhase.installBaseTools = true := htake _ (by decide)
      have a4 : ok ImgPhase.installPackages = true := htake _ (by decide)
      have a5 : ok ImgPhase.createUser = true := htake _ (by decide)
      have a6 : ok ImgPhase.installMise = true := htake _ (by decide)
      simp [ensure_image, imgPhases, runImgPhases, imgEffect, Except.map, a1,
        a2, a3, a4, a5, a6, hp]
  · simp [ensure_image, imgPhases, runImgPhases, imgEffect, Except.map]

/-- Witness for C2 amended: package install failing first. -/
theorem ensure_image_failure_no_cleanup_witness :
    ((ensure_image (fun p => p != ImgPhase.installPackages)
        { buildRootExists := false, imageUsrLocal := false,
          imageSnapshot := false } "0123456789ab").1
        = .error ImgPhase.installPackages
      ∧ (ensure_image (fun p => p != ImgPhase.installPackages)
          { buildRootExists := false, imageUsrLocal := false,
            imageSnapshot := false } "0123456789ab").2.1
        = { buildRootExists := true, imageUsrLocal := false,
            imageSnapshot := false }
      ∧ ImgPhase.destroyBuildRoot ∉ (ensure_image
          (fun p => p != ImgPhase.installPackages)
          { buildRootExists := false, imageUsrLocal := false,
            imageSnapshot := false } "0123456789ab").2.2
      ∧ ImgPhase.cleanupStale ∉ (ensure_image
          (fun p => p != ImgPhase.installPackages)
          { buildRootExists := false, imageUsrLocal := false,
            imageSnapshot := false } "0123456789ab").2.2)
    ∧ ensure_image (fun _ => true)
        { buildRootExists := true, imageUsrLocal := false,
          imageSnapshot := false } "0123456789ab"
      = (.ok (image_path "0123456789ab"),
         { buildRootExists := false, imageUsrLocal := true,
           imageSnapshot := true },
         imgPhases true) :=
  ensure_image_failure_no_cleanup (fun p => p != ImgPhase.installPackages)
    ImgPhase.installPackages "0123456789ab" (by decide) (by decide) (by decide)

/-! ## C6: the address allocator returns the first free host suffix -/

lemma find?_range'_some {p : Nat → Bool} :
    ∀ {n s a : Nat}, (List.range' s n).find? p = some a →
      s ≤ a ∧ a < s + n ∧ p a = true ∧ ∀ j, s ≤ j → j < a → p j = false := by
  intro n
  induction n with
  | zero => intro s a h; simp [List.range'] at h
  | succ n ih =>
    intro s a h
    rw [List.range'_succ] at h
    by_cases hp : p s = true
    · rw [List.find?_cons_of_pos _ hp] at h
      injection h with h
      subst h
      exact ⟨le_refl _, by omega, hp, fun j h1 h2 => by omega⟩
    · rw [List.find?_cons_of_neg _ hp] at h
      rcases ih h with ⟨h1, h2, h3, h4⟩
      refine ⟨by omega, by omega, h3, ?_⟩
      intro j hj1 hj2
      rcases Nat.eq_or_lt_of_le hj1 with rfl | hlt
      · simpa using hp
      · exact h4 j (by omega) hj2

lemma find?_range'_none {p : Nat → Bool} {s n : Nat}
    (h : (List.range' s n).find? p = none) :
    ∀ j, s ≤ j → j < s + n → p j = false := by
  intro j h1 h2
  have hj : j ∈ List.range' s n := List.mem_range'_1.mpr ⟨h1, h2⟩
  have := List.find?_eq_none.1 h j hj
  simpa using this

lemma find?_range'_eq_some {p : Nat → Bool} {s n a : Nat} (h1 : s ≤ a)
    (h2 : a < s + n) (h3 : p a = true)
    (h4 : ∀ j, s ≤ j → j < a → p j = false) :
    (List.range' s n).find? p = some a := by
  rcases hf : (List.range' s n).find? p with _ | b
  · exact absurd h3 (by simp [find?_range'_none hf a h1 h2])
  · rcases find?_range'_some hf with ⟨hb1, _, hb3, hb4⟩
    have hba : ¬b < a := fun hlt => by simp [h4 b hb1 hlt] at hb3
    have hab : ¬a < b := fun hlt => by simp [hb4 a h1 hlt] at h3
    have hba' : a = b := by omega
    rw [hba']

/-- C6: for a subnet whose base address has four dot-separated parts (a /24
subnet string), find_free_ip returns exactly the address whose host suffix
is the smallest i in 2..=254 such that net24.i is not among the (trimmed)
addresses aliased on lo1 — never suffix 0, 1 or 255 and never an aliased
address — and errors with noFreeIp exactly when every suffix 2..=254 is
present in the live alias set. -/
theorem find_free_ip_spec :
    ∀ (subnet : String) (aliasLines : List String),
      (subnetParts subnet).length = 4 →
      (∀ a, find_free_ip subnet aliasLines = .ok a ↔
        ∃ i, 2 ≤ i ∧ i ≤ 254 ∧ a = candidateIp (net24Of subnet) i
          ∧ candidateIp (net24Of subnet) i ∉ aliasLines.map trimStr
          ∧ ∀ j, 2 ≤ j → j < i →
              candidateIp (net24Of subnet) j ∈ aliasLines.map trimStr)
      ∧ (find_free_ip subnet aliasLines = .error .noFreeIp ↔
        ∀ i, 2 ≤ i → i ≤ 254 →
          candidateIp (net24Of subnet) i ∈ aliasLines.map trimStr) := by
  intro subnet aliasLines hlen
  have hif : find_free_ip subnet aliasLines =
      (match (List.range' 2 253).find?
          (fun i => !((aliasLines.map trimStr).contains
            (candidateIp (net24Of subnet) i))) with
        | some i => .ok (candidateIp (net24Of subnet) i)
        | none => .error .noFreeIp) := by
    simp [find_free_ip, hlen]
  have hPt : ∀ i, (!((aliasLines.map trimStr).contains
        (candidateIp (net24Of subnet) i))) = true ↔
      candidateIp (net24Of subnet) i ∉ aliasLines.map trimStr := by
    intro i
    simp [List.contains, List.elem_iff]
  have hPf : ∀ i, (!((aliasLines.map trimStr).contains
        (candidateIp (net24Of subnet) i))) = false ↔
      candidateIp (net24Of subnet) i ∈ aliasLines.map trimStr := by
    intro i
    simp [List.contains, List.elem_iff]
  rcases hf : (List.range' 2 253).find?
      (fun i => !((aliasLines.map trimStr).contains
        (candidateIp (net24Of subnet) i))) with _ | i
  · rw [hf] at hif
    constructor
    · intro a
      rw [hif]
      constructor
      · intro h; cases h
      · rintro ⟨i, hi1, hi2, _, hfree, _⟩
        have := find?_range'_none hf i hi1 (by omega)
        exact absurd ((hPf i).1 this) hfree
    · rw [hif]
      constructor
      · intro _ i hi1 hi2
        exact (hPf i).1 (find?_range'_none hf i hi1 (by omega))
      · intro _; rfl
  · rw [hf] at hif
    rcases find?_range'_some hf with ⟨h2i, hi255, hPi, hmin⟩
    constructor
    · intro a
      rw [hif]
      constructor
      · intro h
        injection h with h
        exact ⟨i, h2i, by omega, h.symm, (hPt i).1 hPi,
          fun j hj1 hj2 => (hPf j).1 (hmin j hj1 hj2)⟩
      · rintro ⟨i2, hi21, hi22, rfl, hfree, hmin2⟩
        have hsome : (List.range' 2 253).find?
            (fun i => !((aliasLines.map trimStr).contains
              (candidateIp (net24Of subnet) i))) = some i2 := by
          apply find?_range'_eq_some hi21 (by omega) ((hPt i2).2 hfree)
          intro j hj1 hj2
          exact (hPf j).2 (hmin2 j hj1 hj2)
        rw [hf] at hsome
        injection hsome with hsome
        rw [hsome]
    · rw [hif]
      constructor
      · intro h; cases h
      · intro hall
        have := (hPf i).2 (hall i h2i (by omega))
        rw [this] at hPi
        cases hPi

/-- Witness for C6: in 10.0.0.0/24 with .2 and .3 aliased (with whitespace
noise), the allocator returns 10.0.0.4. -/
theorem find_free_ip_spec_witness :
    find_free_ip "10.0.0.0/24" ["  10.0.0.2", "10.0.0.3 "] = .ok "10.0.0.4" :=
  ((find_free_ip_spec "10.0.0.0/24" ["  10.0.0.2", "10.0.0.3 "]
      (by decide)).1 "10.0.0.4").2
    ⟨4, by decide, by decide, by decide, by decide,
     fun j h1 h2 => by interval_cases j <;> decide⟩

/-! ## Order properties of the byte-wise string comparison -/

lemma char_eq_of_toNat_eq {a b : Char} (h : a.toNat = b.toNat) : a = b :=
  Char.ext (UInt32.eq_of_val_eq (Fin.eq_of_val_eq h))

lemma charListLe_total : ∀ a b, charListLe a b = true ∨ charListLe b a = true := by
  intro a
  induction a with
  | nil => intro b; left; rfl
  | cons x xs ih =>
    intro b
    cases b with
    | nil => right; rfl
    | cons y ys =>
      by_cases h1 : x.toNat < y.toNat
      · left; simp [charListLe, h1]
      · by_cases h2 : y.toNat < x.toNat
        · right; simp [charListLe, h2]
        · rcases ih ys with h | h
          · left; simp [charListLe, h1, h2, h]
          · right; simp [charListLe, h1, h2, h]

lemma charListLe_antisymm :
    ∀ a b, charListLe a b = true → charListLe b a = true → a = b := by
  intro a
  induction a with
  | nil =>
    intro b h1 h2
    cases b with
    | nil => rfl
    | cons y ys => simp [charListLe] at h2
  | cons x xs ih =>
    intro b h1 h2
    cases b with
    | nil => simp [charListLe] at h1
    | cons y ys =>
      by_cases hxy : x.toNat < y.toNat
      · have hnyx : ¬y.toNat < x.toNat := by omega
        simp [charListLe, hxy, hnyx] at h2
      · by_cases hyx : y.toNat < x.toNat
        · simp [charListLe, hxy, hyx] at h1
        · have hxyEq : x = y := char_eq_of_toNat_eq (by omega)
          subst hxyEq
          simp [charListLe] at h1 h2
          exact congrArg (x :: ·) (ih ys h1 h2)

lemma charListLe_trans :
    ∀ a b c, charListLe a b = true → charListLe b c = true →
      charListLe a c = true := by
  intro a
  induction a with
  | nil => intro b c _ _; rfl
  | cons x xs ih =>
    intro b c hab hbc
    cases b with
    | nil => simp [charListLe] at hab
    | cons y ys =>
      cases c with
      | nil => simp [charListLe] at hbc
      | cons z zs =>
        simp only [charListLe] at hab hbc ⊢
        rcases Nat.lt_trichotomy x.toNat y.toNat with h1 | h1 | h1
        · rcases Nat.lt_trichotomy y.toNat z.toNat with h2 | h2 | h2
          · simp [show x.toNat < z.toNat by omega]
          · simp [show x.toNat < z.toNat by omega]
          · have hnyz : ¬y.toNat < z.toNat := by omega
            simp [hnyz, h2] at hbc
        · rcases Nat.lt_trichotomy y.toNat z.toNat with h2 | h2 | h2
          · simp [show x.toNat < z.toNat by omega]
          · have hnxy : ¬x.toNat < y.toNat := by omega
            have hnyx : ¬y.toNat < x.toNat := by omega
            have hnyz : ¬y.toNat < z.toNat := by omega
            have hnzy : ¬z.toNat < y.toNat := by omega
            have hnxz : ¬x.toNat < z.toNat := by omega
            have hnzx : ¬z.toNat < x.toNat := by omega
            simp [hnxy, hnyx] at hab
            simp [hnyz, hnzy] at hbc
            simp [hnxz, hnzx]
            exact ih ys zs hab hbc
          · have hnyz : ¬y.toNat < z.toNat := by omega
            simp [hnyz, h2] at hbc
        · have hnxy : ¬x.toNat < y.toNat := by omega
          simp [hnxy, h1] at hab

instance : IsTotal String strLe :=
  ⟨fun a b => charListLe_total a.data b.data⟩
instance : IsTrans String strLe :=
  ⟨fun a b c => charListLe_trans a.data b.data c.data⟩
instance : IsAntisymm String strLe :=
  ⟨fun _ _ h1 h2 => String.ext (charListLe_antisymm _ _ h1 h2)⟩
instance : IsTotal (String × String) keyLe :=
  ⟨fun a b => charListLe_total a.1.data b.1.data⟩
instance : IsTrans (String × String) keyLe :=
  ⟨fun a b c => charListLe_trans a.1.data b.1.data c.1.data⟩

/-- Sorting is permutation-invariant: the sorted form of a list depends only
on its multiset of elements. -/
lemma sortStrings_perm_eq {l1 l2 : List String} (h : l1.Perm l2) :
    sortStrings l1 = sortStrings l2 :=
  List.eq_of_perm_of_sorted
    ((List.perm_insertionSort strLe l1).trans
      (h.trans (List.perm_insertionSort strLe l2).symm))
    (List.sorted_insertionSort strLe l1)
    (List.sorted_insertionSort strLe l2)

/-- Two key-sorted pair lists that are permutations of each other and have
duplicate-free keys are equal (keyLe is not antisymmetric in general, but
is on such lists). -/
lemma eq_of_perm_of_sorted_keyLe :
    ∀ {l1 l2 : List (String × String)}, l1.Perm l2 →
      List.Sorted keyLe l1 → List.Sorted keyLe l2 →
      (l1.map Prod.fst).Nodup → l1 = l2 := by
  intro l1
  induction l1 with
  | nil =>
    intro l2 hp _ _ _
    exact hp.nil_eq
  | cons a t1 ih =>
    intro l2 hp hs1 hs2 hnd
    cases l2 with
    | nil => exact absurd hp.symm.nil_eq (by simp)
    | cons b t2 =>
      have hab : a = b := by
        have hbmem : b ∈ a :: t1 := hp.mem_iff.mpr (List.mem_cons_self b t2)
        have hamem : a ∈ b :: t2 := hp.mem_iff.mp (List.mem_cons_self a t1)
        rcases List.mem_cons.1 hbmem with heq | hbt1
        · exact heq.symm
        rcases List.mem_cons.1 hamem with heq | hat2
        · exact heq
        exfalso
        have h1 : keyLe a b := List.rel_of_sorted_cons hs1 b hbt1
        have h2 : keyLe b a := List.rel_of_sorted_cons hs2 a hat2
        have hkey : a.1 = b.1 := String.ext (charListLe_antisymm _ _ h1 h2)
        have hnotin : a.1 ∉ t1.map Prod.fst := (List.nodup_cons.1 hnd).1
        exact hnotin (List.mem_map.2 ⟨b, hbt1, hkey.symm⟩)
      subst hab
      have hp' : t1.Perm t2 := hp.cons_inv
      exact congrArg (a :: ·)
        (ih hp' hs1.of_cons hs2.of_cons ((List.nodup_cons.1 hnd).2))

lemma sortPairs_perm_eq {l1 l2 : List (String × String)} (h : l1.Perm l2)
    (hnd : (l1.map Prod.fst).Nodup) : sortPairs l1 = sortPairs l2 := by
  apply eq_of_perm_of_sorted_keyLe
  · exact (List.perm_insertionSort keyLe l1).trans
      (h.trans (List.perm_insertionSort keyLe l2).symm)
  · exact List.sorted_insertionSort keyLe l1
  · exact List.sorted_insertionSort keyLe l2
  · have hperm : ((List.insertionSort keyLe l1).map Prod.fst).Perm
        (l1.map Prod.fst) := (List.perm_insertionSort keyLe l1).map Prod.fst
    exact hperm.symm.nodup hnd

/-! ## C8: the fingerprint is order-independent -/

/-- C8: permuting the packages list or the mise entry list (whose keys are
unique, being a HashMap) leaves get_image_hash unchanged: the fingerprint
depends only on the normalized tuple. -/
theorem image_hash_order_independent :
    ∀ (c1 c2 : Config) (bv : String),
      c1.packages.Perm c2.packages →
      c1.mise.Perm c2.mise →
      (c1.mise.map Prod.fst).Nodup →
      c1.user = c2.user →
      get_image_hash c1 bv = get_image_hash c2 bv := by
  intro c1 c2 bv hpk hm hnd hu
  unfold get_image_hash
  rw [sortStrings_perm_eq hpk, sortPairs_perm_eq hm hnd, hu]

/-- Witness for C8: `fingerprint(["b","a"]) = fingerprint(["a","b"])`, with a
reordered tool map as well. -/
theorem image_hash_order_independent_witness :
    get_image_hash
        { packages := ["b", "a"], mise := [("node", "20"), ("go", "1.22")],
          user := some "web" } "14.1-RELEASE"
      = get_image_hash
        { packages := ["a", "b"], mise := [("go", "1.22"), ("node", "20")],
          user := some "web" } "14.1-RELEASE" :=
  image_hash_order_independent
    { packages := ["b", "a"], mise := [("node", "20"), ("go", "1.22")],
      user := some "web" }
    { packages := ["a", "b"], mise := [("go", "1.22"), ("node", "20")],
      user := some "web" }
    "14.1-RELEASE" (by decide) (by decide) (by decide) rfl

/-! ## C7: field sensitivity of the fingerprint

The hashed stream delimits every package and mise entry with `";"` and the
mise key from its version with `":"`, but the base version is written with
NO delimiter before the first package, and nothing prevents the delimiter
characters from occurring inside field values.  We prove: (a) the exact
collisions this allows (counterexample), and (b) that for delimiter-free
field values the stream determines the normalized tuple once the base
version is fixed, and conversely determines the base version once the tuple
is fixed. -/

/-- Chunks joined with a trailing delimiter after each chunk (the shape of
the package and mise sections of the hash stream). -/
def joinD (d : Char) : List (List Char) → List Char
  | [] => []
  | c :: cs => c ++ d :: joinD d cs

lemma joinD_append (d : Char) (xs ys : List (List Char)) :
    joinD d (xs ++ ys) = joinD d xs ++ joinD d ys := by
  induction xs with
  | nil => simp [joinD]
  | cons c cs ih => simp [joinD, ih]

lemma chunk_split {d : Char} :
    ∀ {a b x y : List Char}, d ∉ a → d ∉ b → a ++ d :: x = b ++ d :: y →
      a = b ∧ x = y := by
  intro a
  induction a with
  | nil =>
    intro b x y _ hb h
    cases b with
    | nil =>
      simp only [List.nil_append] at h
      exact ⟨rfl, by injection h⟩
    | cons e b' =>
      simp only [List.nil_append, List.cons_append, List.cons.injEq] at h
      rcases h with ⟨rfl, _⟩
      exact absurd (List.mem_cons_self _ _) hb
  | cons f a' ih =>
    intro b x y ha hb h
    cases b with
    | nil =>
      simp only [List.nil_append, List.cons_append, List.cons.injEq] at h
      rcases h with ⟨heq, _⟩
      exact absurd (heq ▸ List.mem_cons_self _ _) ha
    | cons e b' =>
      simp only [List.cons_append, List.cons.injEq] at h
      rcases h with ⟨rfl, h2⟩
      have ha' : d ∉ a' := fun hm => ha (List.mem_cons_of_mem _ hm)
      have hb' : d ∉ b' := fun hm => hb (List.mem_cons_of_mem _ hm)
      rcases ih ha' hb' h2 with ⟨rfl, rfl⟩
      exact ⟨rfl, rfl⟩

lemma joinD_inj {d : Char} :
    ∀ {cs1 cs2 : List (List Char)} {t1 t2 : List Char},
      (∀ c ∈ cs1, d ∉ c) → (∀ c ∈ cs2, d ∉ c) → d ∉ t1 → d ∉ t2 →
      joinD d cs1 ++ t1 = joinD d cs2 ++ t2 → cs1 = cs2 ∧ t1 = t2 := by
  intro cs1
  induction cs1 with
  | nil =>
    intro cs2 t1 t2 _ _ ht1 _ h
    cases cs2 with
    | nil => exact ⟨rfl, by simpa [joinD] using h⟩
    | cons c cs' =>
      exfalso
      apply ht1
      have h' : t1 = c ++ d :: (joinD d cs' ++ t2) := by
        simpa [joinD] using h
      rw [h']
      simp
  | cons c cs ih =>
    intro cs2 t1 t2 h1 h2 ht1 ht2 h
    cases cs2 with
    | nil =>
      exfalso
      apply ht2
      have h' : c ++ d :: (joinD d cs ++ t1) = t2 := by
        simpa [joinD] using h
      rw [← h']
      simp
    | cons e cs' =>
      have h' : c ++ d :: (joinD d cs ++ t1) = e ++ d :: (joinD d cs' ++ t2) := by
        simpa [joinD, List.append_assoc] using h
      rcases chunk_split (h1 c (by simp)) (h2 e (by simp)) h' with ⟨rfl, hrest⟩
      rcases ih (fun x hx => h1 x (List.mem_cons_of_mem _ hx))
        (fun x hx => h2 x (List.mem_cons_of_mem _ hx)) ht1 ht2 hrest with ⟨rfl, rfl⟩
      exact ⟨rfl, rfl⟩

/-- A chunk list splits uniquely into a `g`-free section followed by a
section whose chunks all contain `g` (the package/mise boundary with
`g = ':'`). -/
lemma sections_split {g : Char} :
    ∀ {P1 P2 M1 M2 : List (List Char)},
      (∀ c ∈ P1, g ∉ c) → (∀ c ∈ P2, g ∉ c) →
      (∀ c ∈ M1, g ∈ c) → (∀ c ∈ M2, g ∈ c) →
      P1 ++ M1 = P2 ++ M2 → P1 = P2 ∧ M1 = M2 := by
  intro P1
  induction P1 with
  | nil =>
    intro P2 M1 M2 _ hp2 hm1 _ h
    cases P2 with
    | nil => exact ⟨rfl, h⟩
    | cons q P2' =>
      exfalso
      cases M1 with
      | nil => simp at h
      | cons m M1' =>
        simp only [List.nil_append, List.cons_append, List.cons.injEq] at h
        rcases h with ⟨rfl, _⟩
        exact hp2 m (by simp) (hm1 m (by simp))
  | cons p P1' ih =>
    intro P2 M1 M2 hp1 hp2 hm1 hm2 h
    cases P2 with
    | nil =>
      exfalso
      cases M2 with
      | nil => simp at h
      | cons m M2' =>
        simp only [List.nil_append, List.cons_append, List.cons.injEq] at h
        rcases h with ⟨rfl, _⟩
        exact hp1 p (by simp) (hm2 p (by simp))
    | cons q P2' =>
      simp only [List.cons_append, List.cons.injEq] at h
      rcases h with ⟨rfl, h2⟩
      rcases ih (fun x hx => hp1 x (List.mem_cons_of_mem _ hx))
        (fun x hx => hp2 x (List.mem_cons_of_mem _ hx)) hm1 hm2 h2 with ⟨rfl, rfl⟩
      exact ⟨rfl, rfl⟩

/-- Character data of the optional `"user:" ++ u` suffix of the stream. -/
def userTail : Option String → List Char
  | some u => 'u' :: 's' :: 'e' :: 'r' :: ':' :: u.data
  | none => []

/-- Field values avoid the delimiter characters of the hash stream:
packages are free of `';'` and `':'`, mise keys free of `';'` and `':'`,
mise versions free of `';'`, the user free of `';'`. -/
def userDelimFree : Option String → Prop
  | some u => ';' ∉ u.data
  | none => True

instance : (u : Option String) → Decidable (userDelimFree u)
  | some u => inferInstanceAs (Decidable (';' ∉ u.data))
  | none => inferInstanceAs (Decidable True)

def delimFree (c : Config) : Prop :=
  (∀ p ∈ c.packages, ';' ∉ p.data ∧ ':' ∉ p.data)
    ∧ (∀ tv ∈ c.mise, ';' ∉ tv.1.data ∧ ':' ∉ tv.1.data ∧ ';' ∉ tv.2.data)
    ∧ userDelimFree c.user

instance (c : Config) : Decidable (delimFree c) := by
  unfold delimFree
  infer_instance

/-- The normalized tuple the specification fingerprints:
(sorted packages, key-sorted tool/version pairs, optional user). -/
def normalizeImage (c : Config) :
    List String × List (String × String) × Option String :=
  (sortStrings c.packages, sortPairs c.mise, c.user)

lemma concat_pkgs_data (l : List String) :
    (concatStrings (l.map (fun p => p ++ ";"))).data
      = joinD ';' (l.map String.data) := by
  induction l with
  | nil => rfl
  | cons p l ih =>
    simp [concatStrings, joinD, String.data_append, ih,
      show (";" : String).data = [';'] from rfl]

lemma concat_mise_data (l : List (String × String)) :
    (concatStrings (l.map (fun tv => tv.1 ++ ":" ++ tv.2 ++ ";"))).data
      = joinD ';' (l.map (fun tv => tv.1.data ++ ':' :: tv.2.data)) := by
  induction l with
  | nil => rfl
  | cons tv l ih =>
    simp [concatStrings, joinD, String.data_append, ih,
      show (";" : String).data = [';'] from rfl,
      show (":" : String).data = [':'] from rfl]

/-- Decomposition of the hashed stream into base version, delimited chunk
sections and user tail. -/
lemma get_image_hash_data (c : Config) (bv : String) :
    (get_image_hash c bv).data
      = bv.data
        ++ (joinD ';' (((sortStrings c.packages).map String.data)
              ++ ((sortPairs c.mise).map
                (fun tv => tv.1.data ++ ':' :: tv.2.data)))
          ++ userTail c.user) := by
  rcases hu : c.user with _ | u <;>
    simp [get_image_hash, hu, String.data_append, concat_pkgs_data,
      concat_mise_data, joinD_append, userTail,
      show ("user:" : String).data = ['u', 's', 'e', 'r', ':'] from rfl]

lemma map_data_inj {l1 l2 : List String}
    (h : l1.map String.data = l2.map String.data) : l1 = l2 :=
  List.map_injective_iff.mpr (fun _ _ hd => String.ext hd) h

lemma mise_chunks_inj :
    ∀ {l1 l2 : List (String × String)},
      (∀ tv ∈ l1, ':' ∉ tv.1.data) → (∀ tv ∈ l2, ':' ∉ tv.1.data) →
      l1.map (fun tv => tv.1.data ++ ':' :: tv.2.data)
        = l2.map (fun tv => tv.1.data ++ ':' :: tv.2.data) →
      l1 = l2 := by
  intro l1
  induction l1 with
  | nil =>
    intro l2 _ _ h
    cases l2 with
    | nil => rfl
    | cons b l2' => simp at h
  | cons a l ih =>
    intro l2 h1 h2 h
    cases l2 with
    | nil => simp at h
    | cons b l2' =>
      simp only [List.map_cons, List.cons.injEq] at h
      rcases h with ⟨hhead, htail⟩
      rcases chunk_split (h1 a (by simp)) (h2 b (by simp)) hhead with ⟨hk, hv⟩
      have hab : a = b := Prod.ext (String.ext hk) (String.ext hv)
      subst hab
      exact congrArg (a :: ·)
        (ih (fun x hx => h1 x (List.mem_cons_of_mem _ hx))
          (fun x hx => h2 x (List.mem_cons_of_mem _ hx)) htail)

lemma userTail_inj : ∀ {u1 u2 : Option String},
    userTail u1 = userTail u2 → u1 = u2 := by
  intro u1 u2 h
  cases u1 with
  | none =>
    cases u2 with
    | none => rfl
    | some s => simp [userTail] at h
  | some s =>
    cases u2 with
    | none => simp [userTail] at h
    | some t =>
      simp only [userTail, List.cons.injEq, true_and] at h
      rw [String.ext h]

/-- C7 counterexample: the fingerprint is NOT sensitive to every field.
Packages `["a;b"]` and `["a","b"]` are distinct package lists (distinct
normalized tuples) with identical streams, because `';'` may occur inside a
package name; and base `"14.1"` with package `"foo"` collides with base
`"14.1f"` with package `"oo"`, because the base version is not delimited
from the first package — even with delimiter-free field values. -/
theorem image_hash_collisions :
    get_image_hash { packages := ["a;b"] } "14.1-RELEASE"
        = get_image_hash { packages := ["a", "b"] } "14.1-RELEASE"
      ∧ ({ packages := ["a;b"] } : Config).packages
          ≠ ({ packages := ["a", "b"] } : Config).packages
      ∧ normalizeImage { packages := ["a;b"] }
          ≠ normalizeImage { packages := ["a", "b"] }
      ∧ get_image_hash { packages := ["foo"] } "14.1"
          = get_image_hash { packages := ["oo"] } "14.1f"
      ∧ ("14.1" : String) ≠ "14.1f"
      ∧ normalizeImage ({ packages := ["foo"] } : Config)
          ≠ normalizeImage { packages := ["oo"] } := by
  decide

/-- C7 amended: restricted to delimiter-free field values, the fingerprint
is sensitive to every field relative to the others: if two configurations
hash to the same stream then, when their base versions agree, their
normalized tuples (sorted packages, key-sorted tools, user) agree — so any
change to a package, tool, version or user changes the fingerprint — and
when their normalized tuples agree, their base versions agree — so a change
to the base version alone changes the fingerprint.  (Without the
delimiter-free restriction, and for joint base/package changes, the
counterexample's collisions are possible.) -/
theorem image_hash_field_sensitivity :
    ∀ (c1 c2 : Config) (bv1 bv2 : String),
      delimFree c1 → delimFree c2 →
      get_image_hash c1 bv1 = get_image_hash c2 bv2 →
      ((bv1 = bv2 → normalizeImage c1 = normalizeImage c2)
        ∧ (normalizeImage c1 = normalizeImage c2 → bv1 = bv2)) := by
  intro c1 c2 bv1 bv2 hd1 hd2 hh
  have hdata := congrArg String.data hh
  rw [get_image_hash_data, get_image_hash_data] at hdata
  constructor
  · intro hbv
    subst hbv
    have h2 := List.append_cancel_left hdata
    have hfree1 : ∀ ch ∈ ((sortStrings c1.packages).map String.data)
        ++ ((sortPairs c1.mise).map (fun tv => tv.1.data ++ ':' :: tv.2.data)),
        ';' ∉ ch := by
      intro ch hch
      rcases List.mem_append.1 hch with hpk | hms
      · rcases List.mem_map.1 hpk with ⟨p, hp, rfl⟩
        exact (hd1.1 p (by simpa [sortStrings] using hp)).1
      · rcases List.mem_map.1 hms with ⟨tv, htv, rfl⟩
        have := hd1.2.1 tv (by simpa [sortPairs] using htv)
        simp [this.1, this.2.2]
    have hfree2 : ∀ ch ∈ ((sortStrings c2.packages).map String.data)
        ++ ((sortPairs c2.mise).map (fun tv => tv.1.data ++ ':' :: tv.2.data)),
        ';' ∉ ch := by
      intro ch hch
      rcases List.mem_append.1 hch with hpk | hms
      · rcases List.mem_map.1 hpk with ⟨p, hp, rfl⟩
        exact (hd2.1 p (by simpa [sortStrings] using hp)).1
      · rcases List.mem_map.1 hms with ⟨tv, htv, rfl⟩
        have := hd2.2.1 tv (by simpa [sortPairs] using htv)
        simp [this.1, this.2.2]
    have htail1 : ';' ∉ userTail c1.user := by
      have := hd1.2.2
      rcases hu : c1.user with _ | u
      · simp [userTail]
      · rw [hu] at this
        simp only [userDelimFree] at this
        simp [userTail, this]
    have htail2 : ';' ∉ userTail c2.user := by
      have := hd2.2.2
      rcases hu : c2.user with _ | u
      · simp [userTail]
      · rw [hu] at this
        simp only [userDelimFree] at this
        simp [userTail, this]
    rcases joinD_inj hfree1 hfree2 htail1 htail2 h2 with ⟨hchunks, htails⟩
    have hpkfree1 : ∀ ch ∈ (sortStrings c1.packages).map String.data,
        ':' ∉ ch := by
      intro ch hch
      rcases List.mem_map.1 hch with ⟨p, hp, rfl⟩
      exact (hd1.1 p (by simpa [sortStrings] using hp)).2
    have hpkfree2 : ∀ ch ∈ (sortStrings c2.packages).map String.data,
        ':' ∉ ch := by
      intro ch hch
      rcases List.mem_map.1 hch with ⟨p, hp, rfl⟩
      exact (hd2.1 p (by simpa [sortStrings] using hp)).2
    have hmsin1 : ∀ ch ∈ (sortPairs c1.mise).map
        (fun tv => tv.1.data ++ ':' :: tv.2.data), ':' ∈ ch := by
      intro ch hch
      rcases List.mem_map.1 hch with ⟨tv, _, rfl⟩
      simp
    have hmsin2 : ∀ ch ∈ (sortPairs c2.mise).map
        (fun tv => tv.1.data ++ ':' :: tv.2.data), ':' ∈ ch := by
      intro ch hch
      rcases List.mem_map.1 hch with ⟨tv, _, rfl⟩
      simp
    rcases sections_split hpkfree1 hpkfree2 hmsin1 hmsin2 hchunks with ⟨hP, hM⟩
    have hpkgs : sortStrings c1.packages = sortStrings c2.packages :=
      map_data_inj hP
    have hkfree1 : ∀ tv ∈ sortPairs c1.mise, ':' ∉ tv.1.data := by
      intro tv htv
      exact (hd1.2.1 tv (by simpa [sortPairs] using htv)).2.1
    have hkfree2 : ∀ tv ∈ sortPairs c2.mise, ':' ∉ tv.1.data := by
      intro tv htv
      exact (hd2.2.1 tv (by simpa [sortPairs] using htv)).2.1
    have hmise : sortPairs c1.mise = sortPairs c2.mise :=
      mise_chunks_inj hkfree1 hkfree2 hM
    have huser : c1.user = c2.user := userTail_inj htails
    simp [normalizeImage, hpkgs, hmise, huser]
  · intro hnorm
    have h3 : sortPairs c1.mise = sortPairs c2.mise := by
      have := congrArg (fun t => t.2.1) hnorm
      simpa [normalizeImage] using this
    have h4 : c1.user = c2.user := by
      have := congrArg (fun t => t.2.2) hnorm
      simpa [normalizeImage] using this
    have h1 : sortStrings c1.packages = sortStrings c2.packages := by
      have := congrArg (fun t => t.1) hnorm
      simpa [normalizeImage] using this
    rw [h1, h3, h4] at hdata
    exact String.ext (List.append_cancel_right hdata)

/-- Witness for C7 amended: a configuration with delimiter-free fields
recovers both directions at a concrete instance. -/
theorem image_hash_field_sensitivity_witness :
    ((("14.1-RELEASE" : String) = "14.1-RELEASE") →
      normalizeImage
          { packages := ["ruby"], mise := [("node", "20")], user := some "web" }
        = normalizeImage
          { packages := ["ruby"], mise := [("node", "20")], user := some "web" })
    ∧ (normalizeImage
          { packages := ["ruby"], mise := [("node", "20")], user := some "web" }
        = normalizeImage
          { packages := ["ruby"], mise := [("node", "20")], user := some "web" } →
      ("14.1-RELEASE" : String) = "14.1-RELEASE") :=
  image_hash_field_sensitivity
    { packages := ["ruby"], mise := [("node", "20")], user := some "web" }
    { packages := ["ruby"], mise := [("node", "20")], user := some "web" }
    "14.1-RELEASE" "14.1-RELEASE" (by decide) (by decide) rfl

end BsDeploy
